import Mathlib

/-!
Shallow embedding of the ping-monitor core (ping_monitor.py and
regenerate_report.py): the per-target outage-detector state machine driven
by the poll loop in `monitor`, the probe wrapper `ping_once`, the event
recording of `save_downtime_event`, and the aggregation part of
`generate_html_report`.

Timestamps and latencies are modelled as rationals (Python datetimes carry
microsecond precision; latencies are floats parsed from ping output).
-/

namespace PingMonitor

/-- Per-target mutable state, `TargetState.__init__` in ping_monitor.py:
fail_streak = 0, success_streak = 0, outage = False, outage_start = None. -/
structure TargetState where
  fail_streak : Nat
  success_streak : Nat
  outage : Bool
  outage_start : Option ℚ
deriving DecidableEq, Repr

/-- Initial state of a target (`TargetState()` constructed in `monitor`). -/
def initState : TargetState := ⟨0, 0, false, none⟩

/-- Result of one probe as consumed by `monitor`: the `ok` flag and the
optional parsed latency returned by `ping_once`. -/
structure Outcome where
  ok : Bool
  latency : Option ℚ
deriving DecidableEq, Repr

/-- In-memory outage event as passed to `save_downtime_event(t,
st.outage_start, now, duration)` with `duration = (now -
st.outage_start).total_seconds()`. -/
structure OutageEvent where
  target : String
  start : ℚ
  end_ : ℚ
  duration : ℚ
deriving DecidableEq, Repr

/-- One append to a per-target history deque `deque(maxlen=width)`:
the sample is appended on the right and the oldest sample is evicted
from the left when the capacity is exceeded. -/
def recordSample (width : Nat) (hist : List (Option ℚ)) (s : Option ℚ) :
    List (Option ℚ) :=
  let h := hist ++ [s]
  if width < h.length then h.drop (h.length - width) else h

/-- One tick of the outage detector for one target: the body of the
`for t, res in zip(targets, results)` loop in `monitor` (ping_monitor.py
lines 573-606), applied to one target's state, history and probe result.

On success: substitute latency 1.0 when absent, increment
`success_streak`, zero `fail_streak`, append the latency to the history;
if in outage and `success_streak >= recovery_success_threshold`, emit the
event `(t, outage_start, now, now - outage_start)`, clear `outage` and
`outage_start`, and reset `success_streak` to 0.  The Python expression
`now - st.outage_start` raises when `outage_start` is `None`; that raise
is modelled by the `none` result.

On failure: increment `fail_streak`, zero `success_streak`, append a
failure marker to the history; if not in outage and
`fail_streak >= loss_threshold`, set `outage` and `outage_start := now`. -/
def tickTarget (lossTh recTh width : Nat) (t : String) (st : TargetState)
    (hist : List (Option ℚ)) (res : Outcome) (now : ℚ) :
    Option (TargetState × List (Option ℚ) × Option OutageEvent) :=
  if res.ok then
    let latency := res.latency.getD 1
    let st1 : TargetState :=
      { st with success_streak := st.success_streak + 1, fail_streak := 0 }
    let hist1 := recordSample width hist (some latency)
    if st1.outage = true ∧ recTh ≤ st1.success_streak then
      match st1.outage_start with
      | none => none
      | some s =>
          some ({ st1 with outage := false, outage_start := none,
                           success_streak := 0 },
                hist1, some ⟨t, s, now, now - s⟩)
    else
      some (st1, hist1, none)
  else
    let st1 : TargetState :=
      { st with fail_streak := st.fail_streak + 1, success_streak := 0 }
    let hist1 := recordSample width hist none
    if st1.outage = false ∧ lossTh ≤ st1.fail_streak then
      some ({ st1 with outage := true, outage_start := some now }, hist1, none)
    else
      some (st1, hist1, none)

/-- Result of running a target through a sequence of ticks: final state,
final history buffer, and the outage events emitted along the way in
emission order. -/
structure RunResult where
  state : TargetState
  history : List (Option ℚ)
  events : List OutageEvent
deriving DecidableEq, Repr

/-- Run one target through a list of `(probe result, tick timestamp)`
pairs, threading state and history and accumulating emitted events; each
pair is one iteration of `monitor`'s `while True` loop as seen by this
target, `now = datetime.now()` being the tick's timestamp. -/
def runTarget (lossTh recTh width : Nat) (t : String) (st : TargetState)
    (hist : List (Option ℚ)) (evs : List OutageEvent) :
    List (Outcome × ℚ) → Option RunResult
  | [] => some ⟨st, hist, evs⟩
  | (o, now) :: rest =>
    match tickTarget lossTh recTh width t st hist o now with
    | none => none
    | some (st2, hist2, ev) =>
        runTarget lossTh recTh width t st2 hist2 (evs ++ ev.toList) rest

/-- Trailing count of consecutive failed probes after folding the given
ticks over a starting count `f`: reset to 0 by a success, incremented by
a failure.  Mirrors how `fail_streak` evolves when no state transition
interferes. -/
def consecFailsFrom (f : Nat) (os : List (Outcome × ℚ)) : Nat :=
  os.foldl (fun acc p => if p.1.ok then 0 else acc + 1) f

/-- Trailing count of consecutive successful probes after folding the
given ticks over a starting count `s`. -/
def consecSuccsFrom (s : Nat) (os : List (Outcome × ℚ)) : Nat :=
  os.foldl (fun acc p => if p.1.ok then acc + 1 else 0) s

/-- Tick timestamps are nondecreasing and bounded below by `lb`
(the poll loop reads `datetime.now()` once per tick, so successive tick
timestamps do not decrease). -/
def monoB : ℚ → List (Outcome × ℚ) → Bool
  | _, [] => true
  | lb, p :: rest => decide (lb ≤ p.2) && monoB p.2 rest

/-- Outage event as recorded to `downtime_events.json` by
`save_downtime_event`: `start` and `end` are serialized with
`strftime("%Y-%m-%d %H:%M:%S")`, which truncates the timestamp to a whole
second (the floor, timestamps being nonnegative in practice), while
`duration_s` keeps the exact `total_seconds()` value. -/
structure RecordedEvent where
  target : String
  start : ℤ
  end_ : ℤ
  duration_s : ℚ
deriving DecidableEq, Repr

/-- Truncation performed by `save_downtime_event` when building the JSON
record for one event. -/
def recordEvent (e : OutageEvent) : RecordedEvent :=
  ⟨e.target, ⌊e.start⌋, ⌊e.end_⌋, e.duration⟩

/-- Outcome of the subprocess interaction inside `ping_once`'s try block:
either the ping process ran to completion with a return code and captured
stdout text, or spawning/awaiting it raised an exception (the
`except Exception` arm). -/
inductive SubprocessOutcome where
  | completed (returncode : Int) (stdout : String)
  | raised
deriving DecidableEq

/-- Timeout adjustment in `ping_once`: a target that is not a literal IP
address has its timeout raised to at least 2000 ms before the ping command
is built. -/
def effectiveTimeout (is_ip : Bool) (timeout_ms : Nat) : Nat :=
  if is_ip then timeout_ms else max timeout_ms 2000

/-- Model of `ping_once` (ping_monitor.py lines 36-60): `extract`
abstracts `_extract_latency_ms` applied to the decoded stdout; `target`
and `timeout_ms` shape only the dispatched command (whose interaction is
summarized by `sub`).  When the process completed, `ok` is
`returncode == 0` and the latency is parsed only on success; when
anything raised (spawn failure, unexpected exception), the
`except Exception` handler returns `(False, None)`.  The model is a total
function into a plain pair: no exception propagates to the caller. -/
def ping_once (extract : String → Option ℚ) (_target : String)
    (_timeout_ms : Nat) (sub : SubprocessOutcome) : Bool × Option ℚ :=
  match sub with
  | .completed rc out =>
      let ok := rc == 0
      (ok, if ok then extract out else none)
  | .raised => (false, none)

/-- Update of the `target_stats` dict in `generate_html_report` for one
event: increment the target's count and add its duration, inserting the
target at the end on first sight (Python dicts preserve insertion
order). -/
def addStat (stats : List (String × Nat × ℚ)) (target : String) (d : ℚ) :
    List (String × Nat × ℚ) :=
  if stats.any (fun p => p.1 == target) then
    stats.map (fun p => if p.1 == target then (p.1, p.2.1 + 1, p.2.2 + d) else p)
  else stats ++ [(target, 1, d)]

/-- The `target_stats` aggregation loop of `generate_html_report`
(ping_monitor.py lines 176-182): per-target outage count and total
duration, keyed by target in order of first appearance. -/
def targetStats (events : List RecordedEvent) : List (String × Nat × ℚ) :=
  events.foldl (fun acc e => addStat acc e.target e.duration_s) []

/-- Round-half-to-even to an integer, the rounding used by Python's
built-in `round`. -/
def roundHalfEven (x : ℚ) : ℤ :=
  if x - ⌊x⌋ < 1 / 2 then ⌊x⌋
  else if 1 / 2 < x - ⌊x⌋ then ⌊x⌋ + 1
  else if ⌊x⌋ % 2 = 0 then ⌊x⌋ else ⌊x⌋ + 1

/-- Python's `round(x, 1)` on the per-target total duration. -/
def pyRound1 (x : ℚ) : ℚ := (roundHalfEven (x * 10) : ℚ) / 10

/-- Aggregate chart data computed by `generate_html_report`:
`chart_labels`, `chart_counts` and `chart_durations` (lines 184-187). -/
structure Aggregates where
  labels : List String
  counts : List Nat
  durations : List ℚ
deriving DecidableEq, Repr

/-- Aggregation performed by `generate_html_report` on the stored event
list, paired with the event list as the function leaves it: the Python
code only reads `events` (its sort uses `sorted`, which copies), so the
list is returned unchanged.  `regenerate` in regenerate_report.py loads
the stored list and calls this same function. -/
def generate_html_report (events : List RecordedEvent) :
    Aggregates × List RecordedEvent :=
  let stats := targetStats events
  (⟨stats.map (fun p => p.1), stats.map (fun p => p.2.1),
    stats.map (fun p => pyRound1 p.2.2)⟩, events)

/-- Structural invariant of a target's state maintained by the detector:
`outage_start` is set iff `outage` is, and at most one streak counter is
nonzero. -/
def Inv (st : TargetState) : Prop :=
  (st.outage = true ↔ st.outage_start ≠ none) ∧
  (st.fail_streak = 0 ∨ st.success_streak = 0)

/-- Projection of one tick's result onto everything except the history
buffer: the resulting detector state and the emitted event. -/
def stateAndEvent
    (r : Option (TargetState × List (Option ℚ) × Option OutageEvent)) :
    Option (TargetState × Option OutageEvent) :=
  r.map (fun x => (x.1, x.2.2))

/-- Sample tick: a failed probe at the given timestamp. -/
def failAt (q : ℚ) : Outcome × ℚ := (⟨false, none⟩, q)

/-- Sample tick: a successful probe, 10 ms of latency, at the given
timestamp. -/
def succAt (q : ℚ) : Outcome × ℚ := (⟨true, some 10⟩, q)

/-! ### Basic lemmas about single ticks -/

/-- A successful probe with no pending recovery transition: both streak
updates happen, the latency (defaulted to 1.0) goes to the history, no
event is emitted. -/
lemma tick_ok_stay (L R W : Nat) (t : String) (st : TargetState)
    (hist : List (Option ℚ)) (o : Outcome) (now : ℚ) (ho : o.ok = true)
    (h : ¬(st.outage = true ∧ R ≤ st.success_streak + 1)) :
    tickTarget L R W t st hist o now =
      some ({ st with success_streak := st.success_streak + 1, fail_streak := 0 },
            recordSample W hist (some (o.latency.getD 1)), none) := by
  simp only [tickTarget, ho, if_true]
  rw [if_neg]
  exact h

/-- A successful probe completing the recovery threshold while in outage:
the event is emitted and the state is fully reset. -/
lemma tick_ok_recover (L R W : Nat) (t : String) (st : TargetState)
    (hist : List (Option ℚ)) (o : Outcome) (now s : ℚ) (ho : o.ok = true)
    (hout : st.outage = true) (hs : st.outage_start = some s)
    (hr : R ≤ st.success_streak + 1) :
    tickTarget L R W t st hist o now =
      some (⟨0, 0, false, none⟩,
            recordSample W hist (some (o.latency.getD 1)),
            some ⟨t, s, now, now - s⟩) := by
  simp only [tickTarget, ho, if_true]
  rw [if_pos ⟨hout, hr⟩]
  simp [hs]

/-- A successful probe completing the recovery threshold while in outage
but with no recorded outage start: the Python code would raise on
`now - None`. -/
lemma tick_ok_crash (L R W : Nat) (t : String) (st : TargetState)
    (hist : List (Option ℚ)) (o : Outcome) (now : ℚ) (ho : o.ok = true)
    (hout : st.outage = true) (hs : st.outage_start = none)
    (hr : R ≤ st.success_streak + 1) :
    tickTarget L R W t st hist o now = none := by
  simp only [tickTarget, ho, if_true]
  rw [if_pos ⟨hout, hr⟩]
  simp [hs]

/-- A failed probe that does not complete the loss threshold (or arrives
while already in outage): streaks update, a failure marker goes to the
history, outage fields are untouched. -/
lemma tick_fail_stay (L R W : Nat) (t : String) (st : TargetState)
    (hist : List (Option ℚ)) (o : Outcome) (now : ℚ) (ho : o.ok = false)
    (h : ¬(st.outage = false ∧ L ≤ st.fail_streak + 1)) :
    tickTarget L R W t st hist o now =
      some ({ st with fail_streak := st.fail_streak + 1, success_streak := 0 },
            recordSample W hist none, none) := by
  simp only [tickTarget, ho, Bool.false_eq_true, if_false]
  rw [if_neg]
  exact h

/-- A failed probe completing the loss threshold while up: the outage is
declared and dated at this very tick. -/
lemma tick_fail_declare (L R W : Nat) (t : String) (st : TargetState)
    (hist : List (Option ℚ)) (o : Outcome) (now : ℚ) (ho : o.ok = false)
    (hout : st.outage = false) (hL : L ≤ st.fail_streak + 1) :
    tickTarget L R W t st hist o now =
      some (⟨st.fail_streak + 1, 0, true, some now⟩,
            recordSample W hist none, none) := by
  simp only [tickTarget, ho, Bool.false_eq_true, if_false]
  rw [if_pos ⟨hout, hL⟩]

/-! ### Run-level lemmas -/

lemma runTarget_cons (L R W : Nat) (t : String) (st : TargetState)
    (hist : List (Option ℚ)) (evs : List OutageEvent) (o : Outcome) (now : ℚ)
    (rest : List (Outcome × ℚ)) :
    runTarget L R W t st hist evs ((o, now) :: rest) =
      match tickTarget L R W t st hist o now with
      | none => none
      | some (st2, hist2, ev) =>
          runTarget L R W t st2 hist2 (evs ++ ev.toList) rest := rfl

lemma runTarget_append (L R W : Nat) (t : String) :
    ∀ (xs ys : List (Outcome × ℚ)) (st : TargetState) (hist : List (Option ℚ))
      (evs : List OutageEvent),
    runTarget L R W t st hist evs (xs ++ ys) =
      match runTarget L R W t st hist evs xs with
      | none => none
      | some r => runTarget L R W t r.state r.history r.events ys := by
  intro xs
  induction xs with
  | nil => intro ys st hist evs; rfl
  | cons p rest ih =>
      intro ys st hist evs
      obtain ⟨o, now⟩ := p
      rw [List.cons_append, runTarget_cons, runTarget_cons]
      cases tickTarget L R W t st hist o now with
      | none => rfl
      | some r =>
          obtain ⟨st2, hist2, ev⟩ := r
          exact ih ys st2 hist2 (evs ++ ev.toList)

lemma inv_init : Inv initState := by
  constructor <;> simp [initState]

/-- One tick from a state satisfying the invariant cannot crash and
preserves the invariant. -/
lemma tick_inv (L R W : Nat) (t : String) (st : TargetState)
    (hist : List (Option ℚ)) (o : Outcome) (now : ℚ) (h : Inv st) :
    ∃ st2 hist2 ev,
      tickTarget L R W t st hist o now = some (st2, hist2, ev) ∧ Inv st2 := by
  obtain ⟨h1, _⟩ := h
  by_cases ho : o.ok = true
  · by_cases hrec : st.outage = true ∧ R ≤ st.success_streak + 1
    · obtain ⟨hout, hr⟩ := hrec
      obtain ⟨s, hs⟩ := Option.ne_none_iff_exists'.mp (h1.mp hout)
      refine ⟨_, _, _, tick_ok_recover L R W t st hist o now s ho hout hs hr, ?_⟩
      constructor <;> simp
    · refine ⟨_, _, _, tick_ok_stay L R W t st hist o now ho hrec, ?_⟩
      constructor
      · simpa using h1
      · simp
  · rw [Bool.not_eq_true] at ho
    by_cases hdecl : st.outage = false ∧ L ≤ st.fail_streak + 1
    · obtain ⟨hout, hL⟩ := hdecl
      refine ⟨_, _, _, tick_fail_declare L R W t st hist o now ho hout hL, ?_⟩
      constructor <;> simp
    · refine ⟨_, _, _, tick_fail_stay L R W t st hist o now ho hdecl, ?_⟩
      constructor
      · simpa using h1
      · simp

/-- A whole run from a state satisfying the invariant succeeds and ends in
a state satisfying the invariant. -/
lemma run_inv (L R W : Nat) (t : String) :
    ∀ (os : List (Outcome × ℚ)) (st : TargetState) (hist : List (Option ℚ))
      (evs : List OutageEvent), Inv st →
    ∃ res, runTarget L R W t st hist evs os = some res ∧ Inv res.state := by
  intro os
  induction os with
  | nil => intro st hist evs h; exact ⟨⟨st, hist, evs⟩, rfl, h⟩
  | cons p rest ih =>
      intro st hist evs h
      obtain ⟨o, now⟩ := p
      obtain ⟨st2, hist2, ev, htick, h2⟩ := tick_inv L R W t st hist o now h
      obtain ⟨res, hrun, hres⟩ := ih st2 hist2 (evs ++ ev.toList) h2
      exact ⟨res, by rw [runTarget_cons, htick]; exact hrun, hres⟩

lemma consecFailsFrom_cons (f : Nat) (p : Outcome × ℚ) (l : List (Outcome × ℚ)) :
    consecFailsFrom f (p :: l) = consecFailsFrom (if p.1.ok then 0 else f + 1) l := rfl

lemma consecSuccsFrom_cons (s : Nat) (p : Outcome × ℚ) (l : List (Outcome × ℚ)) :
    consecSuccsFrom s (p :: l) = consecSuccsFrom (if p.1.ok then s + 1 else 0) l := rfl

/-- While every (nonempty) prefix keeps the consecutive-failure count
below the loss threshold, a target that is up stays up, emits nothing,
and its streak counters track the trailing consecutive counts. -/
lemma up_run (L R W : Nat) (t : String) :
    ∀ (os : List (Outcome × ℚ)) (f s : Nat) (hist : List (Option ℚ))
      (evs : List OutageEvent),
    (∀ k, k < os.length → consecFailsFrom f (os.take (k + 1)) < L) →
    ∃ hist2,
      runTarget L R W t ⟨f, s, false, none⟩ hist evs os =
        some ⟨⟨consecFailsFrom f os, consecSuccsFrom s os, false, none⟩, hist2, evs⟩ := by
  intro os
  induction os with
  | nil => intro f s hist evs _; exact ⟨hist, rfl⟩
  | cons p rest ih =>
      intro f s hist evs h
      obtain ⟨o, now⟩ := p
      have hcond : ∀ k, k < rest.length →
          consecFailsFrom (if o.ok then 0 else f + 1) (rest.take (k + 1)) < L := by
        intro k hk
        have := h (k + 1) (by simpa using Nat.succ_lt_succ hk)
        rwa [List.take_succ_cons, consecFailsFrom_cons] at this
      by_cases ho : o.ok = true
      · have htick := tick_ok_stay L R W t ⟨f, s, false, none⟩ hist o now ho
          (by simp)
        obtain ⟨hist2, hrun⟩ := ih 0 (s + 1)
          (recordSample W hist (some (o.latency.getD 1))) evs (by simpa [ho] using hcond)
        refine ⟨hist2, ?_⟩
        rw [runTarget_cons, htick, consecFailsFrom_cons, consecSuccsFrom_cons]
        simpa [ho] using hrun
      · rw [Bool.not_eq_true] at ho
        have hlt : f + 1 < L := by
          have := h 0 (by simp)
          simpa [List.take_succ_cons, consecFailsFrom, ho] using this
        have htick := tick_fail_stay L R W t ⟨f, s, false, none⟩ hist o now ho
          (by intro hc; exact absurd hc.2 (Nat.not_le.mpr hlt))
        obtain ⟨hist2, hrun⟩ := ih (f + 1) 0 (recordSample W hist none) evs
          (by simpa [ho] using hcond)
        refine ⟨hist2, ?_⟩
        rw [runTarget_cons, htick, consecFailsFrom_cons, consecSuccsFrom_cons]
        simpa [ho] using hrun

/-- While every (nonempty) prefix keeps the consecutive-success count
below the recovery threshold, a target that is down stays down, emits
nothing, keeps its recorded outage start, and its streak counters track
the trailing consecutive counts. -/
lemma down_run (L R W : Nat) (t : String) :
    ∀ (os : List (Outcome × ℚ)) (f s : Nat) (s0 : ℚ) (hist : List (Option ℚ))
      (evs : List OutageEvent),
    (∀ k, k < os.length → consecSuccsFrom s (os.take (k + 1)) < R) →
    ∃ hist2,
      runTarget L R W t ⟨f, s, true, some s0⟩ hist evs os =
        some ⟨⟨consecFailsFrom f os, consecSuccsFrom s os, true, some s0⟩, hist2, evs⟩ := by
  intro os
  induction os with
  | nil => intro f s s0 hist evs _; exact ⟨hist, rfl⟩
  | cons p rest ih =>
      intro f s s0 hist evs h
      obtain ⟨o, now⟩ := p
      have hcond : ∀ k, k < rest.length →
          consecSuccsFrom (if o.ok then s + 1 else 0) (rest.take (k + 1)) < R := by
        intro k hk
        have := h (k + 1) (by simpa using Nat.succ_lt_succ hk)
        rwa [List.take_succ_cons, consecSuccsFrom_cons] at this
      by_cases ho : o.ok = true
      · have hlt : s + 1 < R := by
          have := h 0 (by simp)
          simpa [List.take_succ_cons, consecSuccsFrom, ho] using this
        have htick := tick_ok_stay L R W t ⟨f, s, true, some s0⟩ hist o now ho
          (by intro hc; exact absurd hc.2 (Nat.not_le.mpr hlt))
        obtain ⟨hist2, hrun⟩ := ih 0 (s + 1) s0
          (recordSample W hist (some (o.latency.getD 1))) evs (by simpa [ho] using hcond)
        refine ⟨hist2, ?_⟩
        rw [runTarget_cons, htick, consecFailsFrom_cons, consecSuccsFrom_cons]
        simpa [ho] using hrun
      · rw [Bool.not_eq_true] at ho
        have htick := tick_fail_stay L R W t ⟨f, s, true, some s0⟩ hist o now ho
          (by intro hc; exact absurd hc.1 (by simp))
        obtain ⟨hist2, hrun⟩ := ih (f + 1) 0 s0 (recordSample W hist none) evs
          (by simpa [ho] using hcond)
        refine ⟨hist2, ?_⟩
        rw [runTarget_cons, htick, consecFailsFrom_cons, consecSuccsFrom_cons]
        simpa [ho] using hrun

lemma monoB_cons {lb : ℚ} {p : Outcome × ℚ} {rest : List (Outcome × ℚ)}
    (h : monoB lb (p :: rest) = true) : lb ≤ p.2 ∧ monoB p.2 rest = true := by
  simpa [monoB] using h

/-- Any run whose tick timestamps are nondecreasing succeeds (given that
an in-outage state has a recorded start no later than the clock) and every
event it appends satisfies `duration = end - start` and `0 ≤ duration`. -/
lemma run_good (L R W : Nat) (t : String) :
    ∀ (os : List (Outcome × ℚ)) (st : TargetState) (hist : List (Option ℚ))
      (evs : List OutageEvent) (lb : ℚ),
    (st.outage = true → st.outage_start ≠ none) →
    (∀ s, st.outage_start = some s → s ≤ lb) →
    monoB lb os = true →
    (∀ e ∈ evs, e.duration = e.end_ - e.start ∧ 0 ≤ e.duration) →
    ∃ res, runTarget L R W t st hist evs os = some res ∧
      ∀ e ∈ res.events, e.duration = e.end_ - e.start ∧ 0 ≤ e.duration := by
  intro os
  induction os with
  | nil => intro st hist evs lb _ _ _ hevs; exact ⟨⟨st, hist, evs⟩, rfl, hevs⟩
  | cons p rest ih =>
      intro st hist evs lb hstart hbound hmono hevs
      obtain ⟨o, now⟩ := p
      obtain ⟨hlb, hmono2⟩ := monoB_cons hmono
      by_cases ho : o.ok = true
      · by_cases hrec : st.outage = true ∧ R ≤ st.success_streak + 1
        · obtain ⟨hout, hr⟩ := hrec
          obtain ⟨s, hs⟩ := Option.ne_none_iff_exists'.mp (hstart hout)
          have htick := tick_ok_recover L R W t st hist o now s ho hout hs hr
          have hgood : ∀ e ∈ evs ++ [(⟨t, s, now, now - s⟩ : OutageEvent)],
              e.duration = e.end_ - e.start ∧ 0 ≤ e.duration := by
            intro e he
            rcases List.mem_append.mp he with h1 | h1
            · exact hevs e h1
            · rcases List.mem_singleton.mp h1 with rfl
              exact ⟨rfl, sub_nonneg.mpr (le_trans (hbound s hs) hlb)⟩
          obtain ⟨res, hrun, hres⟩ := ih ⟨0, 0, false, none⟩
            (recordSample W hist (some (o.latency.getD 1)))
            (evs ++ [⟨t, s, now, now - s⟩]) now (by simp) (by simp) hmono2 hgood
          exact ⟨res, by rw [runTarget_cons, htick]; exact hrun, hres⟩
        · have htick := tick_ok_stay L R W t st hist o now ho hrec
          obtain ⟨res, hrun, hres⟩ := ih
            { st with success_streak := st.success_streak + 1, fail_streak := 0 }
            (recordSample W hist (some (o.latency.getD 1)))
            (evs ++ (none : Option OutageEvent).toList) now
            (by simpa using hstart) (fun s hs => le_trans (hbound s hs) hlb)
            hmono2 (by simpa using hevs)
          exact ⟨res, by rw [runTarget_cons, htick]; exact hrun, hres⟩
      · rw [Bool.not_eq_true] at ho
        by_cases hdecl : st.outage = false ∧ L ≤ st.fail_streak + 1
        · obtain ⟨hout, hL⟩ := hdecl
          have htick := tick_fail_declare L R W t st hist o now ho hout hL
          obtain ⟨res, hrun, hres⟩ := ih ⟨st.fail_streak + 1, 0, true, some now⟩
            (recordSample W hist none) (evs ++ (none : Option OutageEvent).toList) now
            (by simp) (by simp) hmono2 (by simpa using hevs)
          exact ⟨res, by rw [runTarget_cons, htick]; exact hrun, hres⟩
        · have htick := tick_fail_stay L R W t st hist o now ho hdecl
          obtain ⟨res, hrun, hres⟩ := ih
            { st with fail_streak := st.fail_streak + 1, success_streak := 0 }
            (recordSample W hist none)
            (evs ++ (none : Option OutageEvent).toList) now
            (by simpa using hstart) (fun s hs => le_trans (hbound s hs) hlb)
            hmono2 (by simpa using hevs)
          exact ⟨res, by rw [runTarget_cons, htick]; exact hrun, hres⟩

/-- When both endpoints of an event are whole seconds, the truncation in
`save_downtime_event` is lossless and the recorded fields still satisfy
the duration equation. -/
lemma recorded_eq_of_whole_seconds (e : OutageEvent)
    (hd : e.duration = e.end_ - e.start)
    (h1 : e.start.den = 1) (h2 : e.end_.den = 1) :
    (recordEvent e).duration_s =
      ((recordEvent e).end_ : ℚ) - ((recordEvent e).start : ℚ) := by
  have hs : (⌊e.start⌋ : ℚ) = e.start := by
    have h := (Rat.den_eq_one_iff e.start).mp h1
    rw [← h, Int.floor_intCast]
  have he : (⌊e.end_⌋ : ℚ) = e.end_ := by
    have h := (Rat.den_eq_one_iff e.end_).mp h2
    rw [← h, Int.floor_intCast]
  show e.duration = ((⌊e.end_⌋ : ℤ) : ℚ) - ((⌊e.start⌋ : ℤ) : ℚ)
  rw [hs, he, hd]

lemma consecFailsFrom_append_single (f : Nat) (xs : List (Outcome × ℚ))
    (p : Outcome × ℚ) :
    consecFailsFrom f (xs ++ [p]) =
      if p.1.ok then 0 else consecFailsFrom f xs + 1 := by
  simp [consecFailsFrom, List.foldl_append]

lemma consecSuccsFrom_append_single (s : Nat) (xs : List (Outcome × ℚ))
    (p : Outcome × ℚ) :
    consecSuccsFrom s (xs ++ [p]) =
      if p.1.ok then consecSuccsFrom s xs + 1 else 0 := by
  simp [consecSuccsFrom, List.foldl_append]

/-- Prefix conditions restrict to prefixes of prefixes. -/
lemma prefix_cond {L : Nat} {os : List (Outcome × ℚ)} {k : Nat}
    (g : Nat → List (Outcome × ℚ) → Nat)
    (hbefore : ∀ i, i < k → g 0 (os.take (i + 1)) < L) :
    ∀ i, i ≤ k → ∀ j, j < (os.take i).length →
      g 0 ((os.take i).take (j + 1)) < L := by
  intro i hi j hj
  rw [List.length_take] at hj
  have hj1 : j + 1 ≤ i := by omega
  rw [List.take_take, min_eq_left hj1]
  exact hbefore j (by omega)

/-! ### Claim theorems -/

/-- C1: starting from the fresh (Up) target state, the detector declares
an outage — sets `outage` to true — exactly on the tick whose trailing
consecutive-failure count first reaches the loss threshold: every run over
a prefix of at most `k` ticks leaves the target up with no outage start,
and the run over `k + 1` ticks ends down with `outage_start` equal to the
timestamp of that threshold-completing tick (not the timestamp of the
first failure of the streak). -/
theorem outage_declared_exactly_at_threshold (L R W : Nat) (t : String)
    (os : List (Outcome × ℚ)) (k : Nat) (hL : 1 ≤ L) (hk : k < os.length)
    (hbefore : ∀ i, i < k → consecFailsFrom 0 (os.take (i + 1)) < L)
    (hat : L ≤ consecFailsFrom 0 (os.take (k + 1))) :
    (∀ i, i ≤ k →
      ∃ r, runTarget L R W t initState [] [] (os.take i) = some r ∧
        r.state.outage = false ∧ r.state.outage_start = none) ∧
    ∃ r, runTarget L R W t initState [] [] (os.take (k + 1)) = some r ∧
      r.state.outage = true ∧ r.state.outage_start = some os[k].2 ∧
      r.events = [] := by
  have hpre := prefix_cond consecFailsFrom hbefore
  constructor
  · intro i hi
    obtain ⟨hist2, hrun⟩ := up_run L R W t (os.take i) 0 0 [] [] (hpre i hi)
    exact ⟨_, hrun, rfl, rfl⟩
  · rcases hosk : os[k] with ⟨o, now⟩
    have htake : os.take k ++ [(o, now)] = os.take (k + 1) := by
      rw [← hosk]; exact List.take_concat_get' os k hk
    obtain ⟨hist2, hrun⟩ := up_run L R W t (os.take k) 0 0 [] []
      (hpre k (le_refl k))
    have hrun2 : runTarget L R W t initState [] [] (os.take k) =
        some ⟨⟨consecFailsFrom 0 (os.take k), consecSuccsFrom 0 (os.take k),
          false, none⟩, hist2, []⟩ := hrun
    have happ := consecFailsFrom_append_single 0 (os.take k) (o, now)
    rw [htake] at happ
    have ho : o.ok = false := by
      by_contra hc
      rw [Bool.not_eq_false] at hc
      rw [happ] at hat
      simp only [hc, if_pos] at hat
      omega
    have hatk : L ≤ consecFailsFrom 0 (os.take k) + 1 := by
      rw [happ] at hat
      simpa [ho] using hat
    have htick := tick_fail_declare L R W t
      ⟨consecFailsFrom 0 (os.take k), consecSuccsFrom 0 (os.take k), false, none⟩
      hist2 o now ho rfl hatk
    refine ⟨⟨⟨consecFailsFrom 0 (os.take k) + 1, 0, true, some now⟩,
      recordSample W hist2 none, []⟩, ?_, rfl, rfl, rfl⟩
    rw [← htake, runTarget_append, hrun2]
    show runTarget L R W t
        ⟨consecFailsFrom 0 (os.take k), consecSuccsFrom 0 (os.take k), false, none⟩
        hist2 [] [(o, now)] = _
    rw [runTarget_cons, htick]
    rfl

/-- C2: for a target in the Down state, recovery — `outage` set back to
false with exactly one emitted event — happens exactly on the tick whose
trailing consecutive-success count first reaches the recovery threshold:
every run over at most `k` ticks stays down with no event, the run over
`k + 1` ticks ends up with `success_streak` reset to 0, a cleared
`outage_start`, and exactly one event; and a target that never
accumulates `recoveryThreshold` consecutive successes emits no event at
all. -/
theorem recovery_exactly_at_threshold (L R W : Nat) (t : String) (f : Nat)
    (s0 : ℚ) (hR : 1 ≤ R) :
    (∀ (os : List (Outcome × ℚ)) (k : Nat) (hk : k < os.length),
      (∀ i, i < k → consecSuccsFrom 0 (os.take (i + 1)) < R) →
      R ≤ consecSuccsFrom 0 (os.take (k + 1)) →
      (∀ i, i ≤ k →
        ∃ r, runTarget L R W t ⟨f, 0, true, some s0⟩ [] [] (os.take i) = some r ∧
          r.state.outage = true ∧ r.events = []) ∧
      ∃ r, runTarget L R W t ⟨f, 0, true, some s0⟩ [] [] (os.take (k + 1)) = some r ∧
        r.state.outage = false ∧ r.state.success_streak = 0 ∧
        r.state.outage_start = none ∧
        r.events = [⟨t, s0, os[k].2, os[k].2 - s0⟩]) ∧
    (∀ os : List (Outcome × ℚ),
      (∀ i, i < os.length → consecSuccsFrom 0 (os.take (i + 1)) < R) →
      ∃ r, runTarget L R W t ⟨f, 0, true, some s0⟩ [] [] os = some r ∧
        r.state.outage = true ∧ r.events = []) := by
  constructor
  · intro os k hk hbefore hat
    have hpre := prefix_cond consecSuccsFrom hbefore
    constructor
    · intro i hi
      obtain ⟨hist2, hrun⟩ := down_run L R W t (os.take i) f 0 s0 [] [] (hpre i hi)
      exact ⟨_, hrun, rfl, rfl⟩
    · rcases hosk : os[k] with ⟨o, now⟩
      have htake : os.take k ++ [(o, now)] = os.take (k + 1) := by
        rw [← hosk]; exact List.take_concat_get' os k hk
      obtain ⟨hist2, hrun⟩ := down_run L R W t (os.take k) f 0 s0 [] []
        (hpre k (le_refl k))
      have happ := consecSuccsFrom_append_single 0 (os.take k) (o, now)
      rw [htake] at happ
      have ho : o.ok = true := by
        by_contra hc
        rw [Bool.not_eq_true] at hc
        rw [happ] at hat
        simp only [hc, Bool.false_eq_true, if_false] at hat
        omega
      have hatk : R ≤ consecSuccsFrom 0 (os.take k) + 1 := by
        rw [happ] at hat
        simpa [ho] using hat
      have htick := tick_ok_recover L R W t
        ⟨consecFailsFrom f (os.take k), consecSuccsFrom 0 (os.take k), true, some s0⟩
        hist2 o now s0 ho rfl rfl hatk
      refine ⟨⟨⟨0, 0, false, none⟩,
        recordSample W hist2 (some (o.latency.getD 1)), [⟨t, s0, now, now - s0⟩]⟩,
        ?_, rfl, rfl, rfl, rfl⟩
      rw [← htake, runTarget_append, hrun]
      show runTarget L R W t
          ⟨consecFailsFrom f (os.take k), consecSuccsFrom 0 (os.take k), true, some s0⟩
          hist2 [] [(o, now)] = _
      rw [runTarget_cons, htick]
      rfl
  · intro os h
    obtain ⟨hist2, hrun⟩ := down_run L R W t os f 0 s0 [] [] h
    exact ⟨_, hrun, rfl, rfl⟩

/-- C3, amended: every event created at a down-to-up transition in a run
with nondecreasing tick timestamps satisfies `duration = end - start`
exactly and `duration ≥ 0`; for the recorded form of the event
(`save_downtime_event` truncates `start` and `end` to whole seconds while
keeping the exact `duration_s`), the equality additionally holds whenever
both timestamps are whole seconds. -/
theorem outage_event_duration_exact (L R W : Nat) (t : String)
    (os : List (Outcome × ℚ)) (lb : ℚ) (hmono : monoB lb os = true) :
    ∃ res, runTarget L R W t initState [] [] os = some res ∧
      ∀ e ∈ res.events,
        e.duration = e.end_ - e.start ∧ 0 ≤ e.duration ∧
        (e.start.den = 1 → e.end_.den = 1 →
          (recordEvent e).duration_s =
            ((recordEvent e).end_ : ℚ) - ((recordEvent e).start : ℚ)) := by
  obtain ⟨res, hrun, hres⟩ := run_good L R W t os initState [] [] lb
    (by intro h; simp [initState] at h) (by intro s hs; simp [initState] at hs)
    hmono (by intro e he; simp at he)
  refine ⟨res, hrun, ?_⟩
  intro e he
  obtain ⟨h1, h2⟩ := hres e he
  exact ⟨h1, h2, fun hd1 hd2 => recorded_eq_of_whole_seconds e h1 hd1 hd2⟩

/-- C3, counterexample to the claim as stated: with thresholds 1 and 1, a
failed probe at time 9/10 followed by a successful probe at time 1
produces the event (start 9/10, end 1, duration 1/10); the record written
by `save_downtime_event` truncates start and end to whole seconds 0 and 1,
so the recorded `duration_s` (1/10) differs from recorded end minus
recorded start (1). -/
theorem recorded_event_equality_fails :
    (runTarget 1 1 30 "8.8.8.8" initState [] []
        [(⟨false, none⟩, 9 / 10), (⟨true, some 10⟩, 1)]).map RunResult.events =
      some [⟨"8.8.8.8", 9 / 10, 1, 1 / 10⟩] ∧
    (recordEvent ⟨"8.8.8.8", 9 / 10, 1, 1 / 10⟩).start = 0 ∧
    (recordEvent ⟨"8.8.8.8", 9 / 10, 1, 1 / 10⟩).end_ = 1 ∧
    ¬ ((recordEvent ⟨"8.8.8.8", 9 / 10, 1, 1 / 10⟩).duration_s =
        ((recordEvent ⟨"8.8.8.8", 9 / 10, 1, 1 / 10⟩).end_ : ℚ) -
        ((recordEvent ⟨"8.8.8.8", 9 / 10, 1, 1 / 10⟩).start : ℚ)) := by
  refine ⟨?_, ?_, ?_, ?_⟩
  · norm_num [runTarget, tickTarget, recordSample, initState]
  · show ⌊(9 / 10 : ℚ)⌋ = 0
    norm_num [Int.floor_eq_zero_iff]
  · show ⌊(1 : ℚ)⌋ = 1
    norm_num
  · show ¬ ((1 / 10 : ℚ) = ((⌊(1 : ℚ)⌋ : ℤ) : ℚ) - ((⌊(9 / 10 : ℚ)⌋ : ℤ) : ℚ))
    norm_num [Int.floor_eq_zero_iff]

/-- C4: from the initial state, after any number of ticks of any outcome
sequence, at most one of `fail_streak` and `success_streak` is nonzero. -/
theorem streaks_never_both_nonzero (L R W : Nat) (t : String)
    (os : List (Outcome × ℚ)) (k : Nat) :
    ∃ r, runTarget L R W t initState [] [] (os.take k) = some r ∧
      (r.state.fail_streak = 0 ∨ r.state.success_streak = 0) := by
  obtain ⟨r, hrun, hinv⟩ := run_inv L R W t (os.take k) initState [] [] inv_init
  exact ⟨r, hrun, hinv.2⟩

/-- C5: from the initial state, after any number of ticks of any outcome
sequence, `outage_start` is set (non-none) if and only if `outage` is
true. -/
theorem outage_start_iff_in_outage (L R W : Nat) (t : String)
    (os : List (Outcome × ℚ)) (k : Nat) :
    ∃ r, runTarget L R W t initState [] [] (os.take k) = some r ∧
      (r.state.outage_start ≠ none ↔ r.state.outage = true) := by
  obtain ⟨r, hrun, hinv⟩ := run_inv L R W t (os.take k) initState [] [] inv_init
  exact ⟨r, hrun, hinv.1.symm⟩

/-- C6: starting from the fresh (Up) state, an outcome sequence in which
every prefix has a trailing consecutive-failure count below the loss
threshold — i.e. every maximal run of consecutive failures is shorter
than the threshold — never enters Down, at any prefix of the run. -/
theorem short_failure_bursts_never_down (L R W : Nat) (t : String)
    (os : List (Outcome × ℚ))
    (h : ∀ k, k < os.length → consecFailsFrom 0 (os.take (k + 1)) < L) :
    ∀ i, ∃ r, runTarget L R W t initState [] [] (os.take i) = some r ∧
      r.state.outage = false := by
  intro i
  have hcond : ∀ j, j < (os.take i).length →
      consecFailsFrom 0 ((os.take i).take (j + 1)) < L := by
    intro j hj
    rw [List.length_take, lt_min_iff] at hj
    rw [List.take_take, min_eq_left (by omega : j + 1 ≤ i)]
    exact h j hj.2
  obtain ⟨hist2, hrun⟩ := up_run L R W t (os.take i) 0 0 [] [] hcond
  exact ⟨_, hrun, rfl⟩

/-- C7: for every target, timeout and latency parser, an error raised
while performing the probe (process spawn failure, unexpected exception)
makes `ping_once` return success `false` with no latency; `ping_once` is
a total function into a plain pair, so no such error can escape to the
poll loop. -/
theorem probe_error_folded_to_failure (extract : String → Option ℚ)
    (target : String) (timeout_ms : Nat) :
    ping_once extract target timeout_ms SubprocessOutcome.raised =
      (false, none) := rfl

/-- C8: two successful probe results that differ only in their latency
(either may be absent, in which case 1.0 ms is substituted for the
history) produce, from any state, identical detector states — identical
`fail_streak`, `success_streak`, `outage` and `outage_start` — and
identical emitted events; latency influences only the history buffer. -/
theorem latency_does_not_affect_transitions (L R W : Nat) (t : String)
    (st : TargetState) (hist : List (Option ℚ)) (now : ℚ)
    (l1 l2 : Option ℚ) :
    stateAndEvent (tickTarget L R W t st hist ⟨true, l1⟩ now) =
      stateAndEvent (tickTarget L R W t st hist ⟨true, l2⟩ now) := by
  by_cases hrec : st.outage = true ∧ R ≤ st.success_streak + 1
  · obtain ⟨hout, hr⟩ := hrec
    cases hs : st.outage_start with
    | none =>
        rw [tick_ok_crash L R W t st hist ⟨true, l1⟩ now rfl hout hs hr,
          tick_ok_crash L R W t st hist ⟨true, l2⟩ now rfl hout hs hr]
    | some s =>
        rw [tick_ok_recover L R W t st hist ⟨true, l1⟩ now s rfl hout hs hr,
          tick_ok_recover L R W t st hist ⟨true, l2⟩ now s rfl hout hs hr]
        rfl
  · rw [tick_ok_stay L R W t st hist ⟨true, l1⟩ now rfl hrec,
      tick_ok_stay L R W t st hist ⟨true, l2⟩ now rfl hrec]
    rfl

/-- C9: regenerating the report's aggregate data (per-target outage
counts and total durations) twice from the same stored event list — the
second call reading the list exactly as the first call left it, with no
event appended in between — yields identical aggregates.
`generate_html_report` only reads the list, so this is determinism of the
pure aggregation. -/
theorem report_aggregation_idempotent (events : List RecordedEvent) :
    (generate_html_report ((generate_html_report events).2)).1 =
      (generate_html_report events).1 := rfl

/-- C10: a target already in the Down state processing a further failed
probe keeps `outage` and `outage_start` unchanged — only `fail_streak`
increments while `success_streak` stays 0 — and emits no event, so no
second outage can start and the eventual event's start stays at the first
detection until a full recovery. -/
theorem down_state_failure_frame (L R W : Nat) (t : String)
    (st : TargetState) (hist : List (Option ℚ)) (l : Option ℚ) (now : ℚ)
    (h : st.outage = true) :
    tickTarget L R W t st hist ⟨false, l⟩ now =
      some ({ st with fail_streak := st.fail_streak + 1, success_streak := 0 },
            recordSample W hist none, none) := by
  apply tick_fail_stay L R W t st hist ⟨false, l⟩ now rfl
  intro hc
  rw [h] at hc
  exact absurd hc.1 (by simp)

/-! ### Witness instantiations -/

/-- C1 witness: thresholds 3/11, three failures at times 0, 1, 2 — the
target is still up after 0, 1 or 2 ticks and is down with
`outage_start = 2` after the third tick. -/
theorem outage_declared_exactly_at_threshold_witness :
    (∀ i, i ≤ 2 →
      ∃ r, runTarget 3 11 30 "8.8.8.8" initState [] []
          ([failAt 0, failAt 1, failAt 2].take i) = some r ∧
        r.state.outage = false ∧ r.state.outage_start = none) ∧
    ∃ r, runTarget 3 11 30 "8.8.8.8" initState [] []
        ([failAt 0, failAt 1, failAt 2].take (2 + 1)) = some r ∧
      r.state.outage = true ∧ r.state.outage_start = some 2 ∧
      r.events = [] :=
  outage_declared_exactly_at_threshold 3 11 30 "8.8.8.8"
    [failAt 0, failAt 1, failAt 2] 2 (by decide) (by decide) (by decide)
    (by decide)

/-- C2 witness: recovery threshold 2 from a down state with
`outage_start = 0`; two successes at times 5 and 6 recover exactly on the
second one with the single event (start 0, end 6); a lone failure at time
7 emits nothing. -/
theorem recovery_exactly_at_threshold_witness :
    ((∀ i, i ≤ 1 →
      ∃ r, runTarget 3 2 30 "t" ⟨4, 0, true, some 0⟩ [] []
          ([succAt 5, succAt 6].take i) = some r ∧
        r.state.outage = true ∧ r.events = []) ∧
    ∃ r, runTarget 3 2 30 "t" ⟨4, 0, true, some 0⟩ [] []
        ([succAt 5, succAt 6].take (1 + 1)) = some r ∧
      r.state.outage = false ∧ r.state.success_streak = 0 ∧
      r.state.outage_start = none ∧ r.events = [⟨"t", 0, 6, 6 - 0⟩]) ∧
    ∃ r, runTarget 3 2 30 "t" ⟨4, 0, true, some 0⟩ [] [] [failAt 7] = some r ∧
      r.state.outage = true ∧ r.events = [] :=
  ⟨(recovery_exactly_at_threshold 3 2 30 "t" 4 0 (by decide)).1
      [succAt 5, succAt 6] 1 (by decide) (by decide) (by decide),
   (recovery_exactly_at_threshold 3 2 30 "t" 4 0 (by decide)).2
      [failAt 7] (by decide)⟩

/-- C3 witness: thresholds 1/1, a failure at time 0 and a success at
time 1 (nondecreasing timestamps from lower bound 0); the emitted events
all satisfy the duration equation, nonnegativity, and the whole-second
recorded equality. -/
theorem outage_event_duration_exact_witness :
    ∃ res, runTarget 1 1 30 "t" initState [] [] [failAt 0, succAt 1] =
        some res ∧
      ∀ e ∈ res.events,
        e.duration = e.end_ - e.start ∧ 0 ≤ e.duration ∧
        (e.start.den = 1 → e.end_.den = 1 →
          (recordEvent e).duration_s =
            ((recordEvent e).end_ : ℚ) - ((recordEvent e).start : ℚ)) :=
  outage_event_duration_exact 1 1 30 "t" [failAt 0, succAt 1] 0 (by decide)

/-- C6 witness: thresholds 3/11 and the outcome sequence fail, fail,
success, fail, fail (times 0..4) — the target never enters Down over the
whole run. -/
theorem short_failure_bursts_never_down_witness :
    ∃ r, runTarget 3 11 30 "t" initState [] []
        ([failAt 0, failAt 1, succAt 2, failAt 3, failAt 4].take 5) = some r ∧
      r.state.outage = false :=
  short_failure_bursts_never_down 3 11 30 "t"
    [failAt 0, failAt 1, succAt 2, failAt 3, failAt 4] (by decide) 5

/-- C10 witness: a down state with 5 consecutive failures and
`outage_start = 7` processing one more failure at time 9: only
`fail_streak` moves. -/
theorem down_state_failure_frame_witness :
    tickTarget 3 11 30 "t" ⟨5, 0, true, some 7⟩ [] ⟨false, none⟩ 9 =
      some (⟨6, 0, true, some 7⟩, [none], none) :=
  down_state_failure_frame 3 11 30 "t" ⟨5, 0, true, some 7⟩ [] none 9 rfl

end PingMonitor
